import Mathlib

/-!
Verification of the ignore-pattern filtering, traversal, key-assignment,
selection and concatenation core of the two tools in this repository:
`select_files.py` (interactive picker) and `folder_structure_generator.py`
(tree printer).  Python string primitives are modelled over `List Char`;
filesystem trees are modelled by the inductive `Entry`; file contents are
supplied as explicit parameters (an `Option (List String)` for an ignore
file that may not exist, an oracle `String → Except ReadError String` for
reads during concatenation).
-/

/-- Models Python `str.strip()`: remove whitespace from both ends. -/
def pyStrip (s : String) : String :=
  ⟨((s.toList.dropWhile Char.isWhitespace).reverse.dropWhile Char.isWhitespace).reverse⟩

/-- Models Python `str.startswith` for a one-character argument. -/
def pyStartsWith (s : String) (c : Char) : Bool :=
  s.toList.head? == some c

/-- Models Python `str.endswith` for a one-character argument. -/
def pyEndsWith (s : String) (c : Char) : Bool :=
  s.toList.getLast? == some c

/-- Models Python `str.rstrip` with a one-character argument: drops every
trailing occurrence of that character. -/
def pyRstrip (s : String) (c : Char) : String :=
  ⟨(s.toList.reverse.dropWhile (· == c)).reverse⟩

/-- Membership test of a character in a regex-style class body, with `a-z`
ranges active and a trailing or leading `-` literal, as produced by
`fnmatch.translate` for a `[...]` pattern. -/
def classMatch : List Char → Char → Bool
  | [], _ => false
  | a :: '-' :: b :: rest, c => (decide (a ≤ c) && decide (c ≤ b)) || classMatch rest c
  | a :: rest, c => a == c || classMatch rest c

/-- Scans for the closing `]` of a character class, returning the class body
and the remaining pattern; `none` when the class is unterminated. -/
def scanClass : List Char → Option (List Char × List Char)
  | [] => none
  | ']' :: rest => some ([], rest)
  | c :: rest => (scanClass rest).map fun pr => (c :: pr.1, pr.2)

/-- Splits a character class directly after its `[`: handles the leading `!`
negation marker and a literal `]` in first position, exactly as
`fnmatch.translate` does.  Returns `(negated, body, rest)`. -/
def splitClass (cs : List Char) : Option (Bool × List Char × List Char) :=
  let p := match cs with
    | '!' :: t => (true, t)
    | _ => (false, cs)
  match p.2 with
  | ']' :: t => (scanClass t).map fun pr => (p.1, ']' :: pr.1, pr.2)
  | _ => (scanClass p.2).map fun pr => (p.1, pr.1, pr.2)

/-- Fuel-indexed core of shell-style glob matching (`*`, `?`, `[...]`) as in
Python's `fnmatch.fnmatch`, matching the whole name.  Every recursive call
strictly decreases the combined length of pattern and name, so a fuel of
`pattern.length + name.length + 1` never runs out. -/
def globMatchFuel : Nat → List Char → List Char → Bool
  | 0, _, _ => false
  | _ + 1, [], s => s.isEmpty
  | fuel + 1, '*' :: ps, s =>
      globMatchFuel fuel ps s ||
        (match s with
         | [] => false
         | _ :: cs => globMatchFuel fuel ('*' :: ps) cs)
  | fuel + 1, '?' :: ps, s =>
      (match s with
       | [] => false
       | _ :: cs => globMatchFuel fuel ps cs)
  | fuel + 1, '[' :: ps, s =>
      (match splitClass ps with
       | none =>
           (match s with
            | [] => false
            | c :: cs => ('[' == c) && globMatchFuel fuel ps cs)
       | some pr =>
           (match s with
            | [] => false
            | c :: cs => (classMatch pr.2.1 c != pr.1) && globMatchFuel fuel pr.2.2 cs))
  | fuel + 1, p :: ps, s =>
      (match s with
       | [] => false
       | c :: cs => (p == c) && globMatchFuel fuel ps cs)

/-- Models `fnmatch.fnmatch(nm, pattern)` on a case-sensitive (POSIX)
filesystem, where `os.path.normcase` is the identity. -/
def fnmatch (nm pattern : String) : Bool :=
  globMatchFuel (pattern.toList.length + nm.toList.length + 1) pattern.toList nm.toList

/-- A filesystem entry: a plain file or a directory with its children, the
shape walked by `os.walk` and `os.listdir` in the two tools. -/
inductive Entry where
  | file (name : String) : Entry
  | dir (name : String) (children : List Entry) : Entry

/-- The name of an entry, as `os.listdir` would report it. -/
def entryName : Entry → String
  | .file nm => nm
  | .dir nm _ => nm

mutual

/-- Structural size of an entry, an upper bound for traversal fuel. -/
def entrySize : Entry → Nat
  | .file _ => 1
  | .dir _ ch => 1 + entriesSize ch

/-- Structural size of an entry list. -/
def entriesSize : List Entry → Nat
  | [] => 1
  | e :: es => entrySize e + entriesSize es

end

/-- Models `load_ignore_patterns(ignore_files)` of `select_files.py`.  Each
list element stands for one name of `ignore_files`: `none` when
`os.path.exists` is false, otherwise the file's lines (without their
newline terminator).  Each line is stripped first; survivors are the
non-empty stripped lines not starting with `#`. -/
def load_ignore_patterns (ignore_files : List (Option (List String))) : List String :=
  ignore_files.flatMap fun content =>
    match content with
    | none => []
    | some lines =>
        lines.filterMap fun line0 =>
          let line := pyStrip line0
          if line != "" && !(pyStartsWith line '#') then some line else none

/-- Models `is_ignored(path, patterns, root_dir)` of `select_files.py`.  The
path is given as the segment list of `os.path.relpath(path, root_dir)`
split on `os.sep`; its last segment is `os.path.basename(path)`. -/
def is_ignored (path_parts : List String) (patterns : List String) : Bool :=
  patterns.any fun pattern =>
    if pyEndsWith pattern '/' then
      path_parts.contains (pyRstrip pattern '/')
    else
      fnmatch (path_parts.getLastD "") pattern

/-- The files contributed at one level of the `os.walk` loop in
`list_files`: each non-ignored plain file of the current directory, as a
root-relative segment list. -/
def filesHere (patterns : List String) (base : List String) (entries : List Entry) :
    List (List String) :=
  entries.filterMap fun e =>
    match e with
    | .file nm => if is_ignored (base ++ [nm]) patterns then none else some (base ++ [nm])
    | .dir _ _ => none

/-- The recursive part of the `os.walk` loop in `list_files`: descend into
each directory that survives the in-place `dirnames` pruning, collecting its
files and then recursing.  `fuel` bounds the descent depth; `sizeOf` of the
entry list always suffices. -/
def walkDirs (patterns : List String) : Nat → List String → List Entry → List (List String)
  | 0, _, _ => []
  | fuel + 1, base, entries =>
      entries.flatMap fun e =>
        match e with
        | .file _ => []
        | .dir nm ch =>
            if is_ignored (base ++ [nm]) patterns then []
            else filesHere patterns (base ++ [nm]) ch ++ walkDirs patterns fuel (base ++ [nm]) ch

/-- Models `list_files(root_dir, ignore_files)` of `select_files.py`, with
the patterns already loaded: the `os.walk` traversal pruning ignored
directories before descent and filtering ignored files, top-down, files of
a directory before its subdirectories.  Paths are root-relative segment
lists. -/
def list_files (patterns : List String) (entries : List Entry) : List (List String) :=
  filesHere patterns [] entries ++ walkDirs patterns (entriesSize entries) [] entries

example : list_files ["node_modules/"]
    [Entry.dir "node_modules" [Entry.file "x.js"], Entry.dir "src" [Entry.file "main.py"]] =
    [["src", "main.py"]] := by decide

example : fnmatch "x.pyc" "*.pyc" = true := by decide

example : fnmatch "x.py" "*.pyc" = false := by decide

example : fnmatch "ab" "a[a-c]" = true := by decide

example : fnmatch "ad" "a[!a-c]" = true := by decide

example : pyStrip "  #x  " = "#x" := by decide

/-- The built-in default ignore patterns of `folder_structure_generator.py`. -/
def DEFAULT_IGNORE_PATTERNS : List String :=
  ["__pycache__", ".git", "venv", "tests", "alembic", "*.pyc", "*.log"]

/-- The state of a `FolderStructureGenerator`: the Python attribute
`ignored_folders` is a `set` (iteration order arbitrary, no duplicates),
modelled as a duplicate-free list in one fixed order; only membership in it
is meaningful.  `ignore_file` is the configured ignore-file name. -/
structure FolderStructureGenerator where
  ignored_folders : List String
  ignore_file : String

/-- Models `FolderStructureGenerator.__init__(ignored_folders, ignore_file)`:
`set(DEFAULT_IGNORE_PATTERNS).union(set(ignored_folders))`, as a
deduplicated list. -/
def FolderStructureGenerator.make (ignored_folders : List String) (ignore_file : String) :
    FolderStructureGenerator :=
  ⟨(DEFAULT_IGNORE_PATTERNS ++ ignored_folders).dedup, ignore_file⟩

/-- Models `FolderStructureGenerator.load_ignore_patterns(root_dir)`.  The
optional argument stands for the file at
`os.path.join(root_dir, self.ignore_file)`: `none` when it does not exist,
otherwise its lines (without their newline terminator).  Note that, unlike
the picker's loader, the comment test `line.startswith('#')` is applied to
the raw, unstripped line, while the emptiness test and the surviving value
use the stripped line. -/
def FolderStructureGenerator.load_ignore_patterns (g : FolderStructureGenerator)
    (ignore_file_lines : Option (List String)) : List String :=
  g.ignored_folders ++
    match ignore_file_lines with
    | none => []
    | some lines =>
        lines.filterMap fun line =>
          if pyStrip line != "" && !(pyStartsWith line '#') then some (pyStrip line) else none

/-- Models `matches_ignore_pattern(entry)` of
`folder_structure_generator.py`; `entry` is a single directory-entry name. -/
def matches_ignore_pattern (ignore_patterns : List String) (entry : String) : Bool :=
  ignore_patterns.any fun pattern =>
    if pyEndsWith pattern '/' then
      pyRstrip pattern '/' == entry
    else
      fnmatch entry pattern

/-- Stable insertion of an entry into a name-sorted entry list, placing it
before the first strictly larger name. -/
def insertSorted (e : Entry) : List Entry → List Entry
  | [] => [e]
  | x :: xs => if entryName e ≤ entryName x then e :: x :: xs else x :: insertSorted e xs

/-- Models `sorted(os.listdir(dir_path))`: a stable sort of the entries by
name, ascending in code-point order as Python string comparison. -/
def sortEntries : List Entry → List Entry
  | [] => []
  | x :: xs => insertSorted x (sortEntries xs)

/-- Models the nested `recurse(dir_path, prefix)` of
`generate_folder_structure_txt`: sort the entries, drop the ignore file
itself, drop entries matching an ignore pattern, then emit one line per
survivor (directories recursively).  Each output pair carries the entry's
root-relative path alongside the rendered line (the source keeps only the
line; the path is ghost data naming the rendered entry).  `fuel` bounds the
descent depth; `entriesSize` of the children always suffices. -/
def recurse (ignore_patterns : List String) (ignore_file : String) :
    Nat → List Entry → List String → String → List (List String × String)
  | 0, _, _, _ => []
  | fuel + 1, children, base, pfx =>
      let entries0 := sortEntries children
      let entries1 := entries0.filter fun e => entryName e != ignore_file
      let entries := entries1.filter fun e => !(matches_ignore_pattern ignore_patterns (entryName e))
      entries.enum.flatMap fun p =>
        let connector := if p.1 < entries.length - 1 then "├── " else "└── "
        match p.2 with
        | .file nm => [(base ++ [nm], pfx ++ connector ++ nm)]
        | .dir nm ch =>
            (base ++ [nm], pfx ++ connector ++ nm ++ "/") ::
              recurse ignore_patterns ignore_file fuel ch (base ++ [nm])
                (pfx ++ (if p.1 < entries.length - 1 then "│   " else "    "))

/-- Models `generate_folder_structure_txt(current_directory, ...)`: the
produced tree lines, root line first.  The directory is given by its base
name and children; the ignore-file content as in `load_ignore_patterns`. -/
def generate_folder_structure_txt (g : FolderStructureGenerator) (rootName : String)
    (children : List Entry) (ignore_file_lines : Option (List String)) : List String :=
  let ignore_patterns := g.load_ignore_patterns ignore_file_lines
  (rootName ++ "/") ::
    (recurse ignore_patterns g.ignore_file (entriesSize children) children [] "").map Prod.snd

/-- Models `assign_keys(num_files, key_sequence)` of `select_files.py`: the
dict `{idx: key_sequence[idx]}` as an association list in insertion order,
paired with the overflow flag.  The indexing `key_sequence[idx]` is always
in range in both branches, so `getD` equals Python's subscript there. -/
def assign_keys (num_files : Nat) (key_sequence : List Char) : List (Nat × Char) × Bool :=
  if num_files > key_sequence.length then
    ((List.range key_sequence.length).map fun idx => (idx, key_sequence.getD idx ' '), true)
  else
    ((List.range num_files).map fun idx => (idx, key_sequence.getD idx ' '), false)

/-- Models `get_key_mapping(keys)`: the reversed dict comprehension
`{v: k for k, v in keys.items()}` as an association list in insertion
order. -/
def get_key_mapping (keys : List (Nat × Char)) : List (Char × Nat) :=
  keys.map fun p => (p.2, p.1)

/-- Models lookup in a Python dict built from the association list in
order: the last binding of a key wins; `none` models `key not in dict`. -/
def dictFind (l : List (Char × Nat)) (k : Char) : Option Nat :=
  l.foldl (fun acc p => if p.1 == k then some p.2 else acc) none

/-- Models one iteration of the `interactive_file_selection` loop on one
key: Enter breaks the loop, a key bound in `key_to_index` toggles the
membership of its index in the selection set, any other key is ignored.
Returns the new selection set and whether the loop breaks. -/
def selection_step (key_to_index : List (Char × Nat)) (selected : Finset Nat) (key : Char) :
    Finset Nat × Bool :=
  if key == '\n' then (selected, true)
  else
    match dictFind key_to_index key with
    | some idx => (if idx ∈ selected then selected.erase idx else insert idx selected, false)
    | none => (selected, false)

/-- Models the `interactive_file_selection` loop driven by a scripted key
sequence (each element one `readchar.readkey()` result): consume keys until
Enter or the script ends, starting from the given selection set. -/
def session_run (key_to_index : List (Char × Nat)) : List Char → Finset Nat → Finset Nat
  | [], selected => selected
  | key :: rest, selected =>
      let out := selection_step key_to_index selected key
      if out.2 then out.1 else session_run key_to_index rest out.1

/-- Models `interactive_file_selection(files, key_mapping, root_dir)`: the
selection set starts empty and is driven by the scripted keys. -/
def interactive_file_selection (key_mapping : List (Nat × Char)) (keys : List Char) :
    Finset Nat :=
  session_run (get_key_mapping key_mapping) keys ∅

/-- The ways a text read can fail in `concatenate_selected_files`, one per
`except` arm of the source. -/
inductive ReadError where
  | fileNotFound : ReadError
  | unicodeDecodeError : ReadError
  | other (msg : String) : ReadError
deriving DecidableEq

/-- The warning printed by `concatenate_selected_files` for each failing
read, one message per `except` arm. -/
def readWarning (file_path : String) : ReadError → String
  | .fileNotFound => "Warning: Could not find file " ++ file_path ++ ". Skipping."
  | .unicodeDecodeError => "Warning: Could not decode file " ++ file_path ++ ". Skipping."
  | .other e => "Warning: Could not read file " ++ file_path ++ ". Error: " ++ e ++ ". Skipping."

/-- The loop over `selected` in `concatenate_selected_files`: for each index
the subscript `files[idx]` is evaluated outside the `try` (so an
out-of-range index aborts, modelled as `Except.error`); then the read either
appends a `# path` header plus content block or records a warning and skips
the file.  Returns the concatenated block text and the warning list. -/
def concat_go (fs : String → Except ReadError String) (files : List String) :
    List Nat → Except String (String × List String)
  | [] => .ok ("", [])
  | idx :: rest =>
      if h : idx < files.length then
        let file_path := files[idx]
        match concat_go fs files rest with
        | .error e => .error e
        | .ok pr =>
            match fs file_path with
            | .ok content =>
                .ok ("# " ++ file_path ++ "\n" ++ content ++ "\n" ++ pr.1, pr.2)
            | .error e => .ok (pr.1, readWarning file_path e :: pr.2)
      else .error "IndexError: list index out of range"

/-- The artifact text of a run of `concatenate_selected_files`, paired with
the warnings it printed, in print order. -/
structure ConcatResult where
  artifact : String
  warnings : List String
deriving DecidableEq

/-- Models `concatenate_selected_files(selected, files, root_dir)`.  The
read oracle `fs` stands for the filesystem at concatenation time: the
`tree.txt` existence check succeeds exactly when `fs` answers `ok` for it.
`selected` is the selection set in its Python iteration order. -/
def concatenate_selected_files (fs : String → Except ReadError String)
    (selected : List Nat) (files : List String) (root_dir : String) :
    Except String ConcatResult :=
  let tree_file := root_dir ++ "/" ++ "tree.txt"
  let treePart :=
    match fs tree_file with
    | .ok content => ("# " ++ tree_file ++ "\n" ++ content ++ "\n", ([] : List String))
    | .error _ => ("", ["Warning: " ++ tree_file ++ " does not exist and will not be included."])
  match concat_go fs files selected with
  | .error e => .error e
  | .ok pr => .ok ⟨treePart.1 ++ pr.1, treePart.2 ++ pr.2⟩

/-- The predefined key sequence of `main()` in `select_files.py`. -/
def key_sequence : List Char :=
  "aAbBcCdDeEfFgGhHiIjJkKlLmMnNoOpPqQrRsStT1234567890!@#$%^&*()".toList

/-- Right-fold concatenation of a list of strings, used to state the closed
form of the concatenation loop. -/
def concatStrings : List String → String
  | [] => ""
  | s :: rest => s ++ concatStrings rest

/-- A concrete read oracle for the specification scenario: `a.txt` and
`c.txt` readable, every other path (including `b.txt` and the `tree.txt`
prelude) missing. -/
def fsExample : String → Except ReadError String := fun path =>
  if path == "a.txt" then .ok "alpha"
  else if path == "c.txt" then .ok "gamma"
  else .error ReadError.fileNotFound

example : recurse [] ".treeignore" 2 [Entry.file "a.txt"] [] "" =
    [(["a.txt"], "└── a.txt")] := by decide

example : key_sequence.length = 60 := by decide

example : assign_keys 2 ['a', 'b'] = ([(0, 'a'), (1, 'b')], false) := by decide

theorem map_getD_range {α : Type} (l : List α) (d : α) :
    (List.range l.length).map (fun i => l.getD i d) = l := by
  induction l with
  | nil => rfl
  | cons a t ih =>
      rw [List.length_cons, List.range_succ_eq_map, List.map_cons, List.map_map]
      have hc : ((fun i => (a :: t).getD i d) ∘ Nat.succ) = fun i => t.getD i d := by
        funext i
        simp [List.getD_cons_succ]
      rw [hc, ih]
      simp

theorem map_fst_range_pairs (n : Nat) (f : Nat → Char) :
    ((List.range n).map fun i => (i, f i)).map Prod.fst = List.range n := by
  rw [List.map_map]
  exact List.map_id'' (fun _ => rfl) _

/-- C2: a glob (non-trailing-slash) pattern is matched only against the
final path component: in the picker's `is_ignored` it tests exactly the
base name (first and second conjuncts: a glob pattern that does not match
the base name contributes nothing, whatever other segments it would match),
and likewise in the printer's `matches_ignore_pattern`, which only ever
receives a single entry name. -/
theorem glob_pattern_matches_basename_only
    (parts : List String) (p : String) (ps : List String) (entry : String)
    (hglob : pyEndsWith p '/' = false) :
    (is_ignored parts (p :: ps) = (fnmatch (parts.getLastD "") p || is_ignored parts ps)) ∧
    (fnmatch (parts.getLastD "") p = false →
        is_ignored parts (p :: ps) = is_ignored parts ps) ∧
    (matches_ignore_pattern (p :: ps) entry =
        (fnmatch entry p || matches_ignore_pattern ps entry)) ∧
    (fnmatch entry p = false →
        matches_ignore_pattern (p :: ps) entry = matches_ignore_pattern ps entry) := by
  have h1 : is_ignored parts (p :: ps) =
      (fnmatch (parts.getLastD "") p || is_ignored parts ps) := by
    simp [is_ignored, List.any_cons, hglob]
  have h2 : matches_ignore_pattern (p :: ps) entry =
      (fnmatch entry p || matches_ignore_pattern ps entry) := by
    simp [matches_ignore_pattern, List.any_cons, hglob]
  exact ⟨h1, fun hf => by rw [h1, hf, Bool.false_or], h2,
    fun hf => by rw [h2, hf, Bool.false_or]⟩

/-- C2 witness: the glob pattern `build` matches the non-final segment
`build` of `build/x.txt` but not its base name, and indeed does not exclude
the entry (the singleton pattern list behaves like the empty one). -/
theorem glob_pattern_matches_basename_only_w :
    is_ignored ["build", "x.txt"] ["build"] = is_ignored ["build", "x.txt"] [] :=
  (glob_pattern_matches_basename_only ["build", "x.txt"] "build" [] "x.txt" (by decide)).2.1
    (by decide)

/-- C4: in the selection session, toggling the same recognized key twice
returns the selection set to its prior state, and a key that is neither
bound in the inverse key mapping nor the Enter commit key leaves the
selection set unchanged. -/
theorem toggle_self_inverse (kti : List (Char × Nat)) (s : Finset Nat) (k : Char)
    (hk : (k == '\n') = false) :
    (∀ idx, dictFind kti k = some idx →
        (selection_step kti (selection_step kti s k).1 k).1 = s) ∧
    (dictFind kti k = none → (selection_step kti s k).1 = s) := by
  constructor
  · intro idx hfind
    by_cases hmem : idx ∈ s
    · simp [selection_step, hk, hfind, hmem, Finset.not_mem_erase, Finset.insert_erase hmem]
    · simp [selection_step, hk, hfind, hmem, Finset.erase_insert hmem]
  · intro hnone
    simp [selection_step, hk, hnone]

/-- C4 witness: with the single binding `a ↦ 0`, toggling `a` twice from the
empty selection returns to the empty selection, and the unbound key `z`
leaves it unchanged. -/
theorem toggle_self_inverse_w :
    (selection_step [('a', 0)] (selection_step [('a', 0)] ∅ 'a').1 'a').1 = (∅ : Finset Nat) ∧
    (selection_step [('a', 0)] ∅ 'z').1 = (∅ : Finset Nat) :=
  ⟨(toggle_self_inverse [('a', 0)] ∅ 'a' (by decide)).1 0 (by decide),
   (toggle_self_inverse [('a', 0)] ∅ 'z' (by decide)).2 (by decide)⟩

/-- C3: `assign_keys` at `file_count = alphabet_length` yields overflow
`false` and a complete bijection (the indices are exactly
`0..alphabet_length-1` in order, the keys are exactly the alphabet in
order, and for a duplicate-free alphabet equal keys force equal indices);
at `file_count = alphabet_length + 1` it yields overflow `true` with
exactly the indices `0..alphabet_length-1` covered; and in general the
overflow flag is `true` iff `file_count > alphabet_length`. -/
theorem key_assignment_bijection (ks : List Char) (hnd : ks.Nodup) :
    ((assign_keys ks.length ks).2 = false ∧
     (assign_keys ks.length ks).1.map Prod.fst = List.range ks.length ∧
     (assign_keys ks.length ks).1.map Prod.snd = ks ∧
     ∀ p q, p ∈ (assign_keys ks.length ks).1 → q ∈ (assign_keys ks.length ks).1 →
       p.2 = q.2 → p.1 = q.1) ∧
    ((assign_keys (ks.length + 1) ks).2 = true ∧
     (assign_keys (ks.length + 1) ks).1.map Prod.fst = List.range ks.length) ∧
    (∀ n, (assign_keys n ks).2 = true ↔ ks.length < n) := by
  have hexact : assign_keys ks.length ks =
      ((List.range ks.length).map fun idx => (idx, ks.getD idx ' '), false) := by
    simp [assign_keys]
  have hover : assign_keys (ks.length + 1) ks =
      ((List.range ks.length).map fun idx => (idx, ks.getD idx ' '), true) := by
    simp [assign_keys]
  refine ⟨⟨by rw [hexact], by rw [hexact]; exact map_fst_range_pairs _ _, ?_, ?_⟩,
    ⟨by rw [hover], by rw [hover]; exact map_fst_range_pairs _ _⟩, ?_⟩
  · rw [hexact]
    simp only [List.map_map]
    have hc : (Prod.snd ∘ fun idx => (idx, ks.getD idx ' ')) = fun idx => ks.getD idx ' ' := rfl
    rw [hc]
    exact map_getD_range ks ' '
  · rw [hexact]
    intro p q hp hq hsnd
    obtain ⟨i, hi, rfl⟩ := List.mem_map.mp hp
    obtain ⟨j, hj, rfl⟩ := List.mem_map.mp hq
    have hi' : i < ks.length := List.mem_range.mp hi
    have hj' : j < ks.length := List.mem_range.mp hj
    simp only at hsnd ⊢
    rw [List.getD_eq_getElem ks ' ' hi', List.getD_eq_getElem ks ' ' hj'] at hsnd
    exact (List.Nodup.getElem_inj_iff hnd).mp hsnd
  · intro n
    by_cases h : ks.length < n <;> simp [assign_keys, h]

/-- C3 witness: applied to the picker's actual key alphabet. -/
theorem key_assignment_bijection_w :
    (assign_keys key_sequence.length key_sequence).2 = false ∧
    (assign_keys (key_sequence.length + 1) key_sequence).2 = true :=
  ⟨(key_assignment_bijection key_sequence (by decide)).1.1,
   (key_assignment_bijection key_sequence (by decide)).2.1.1⟩

/-- C9 counterexample: the picker's fixed key alphabet has 60 symbols, not
62 or more, and a flat list of 62 files overflows instead of receiving a
complete key assignment. -/
theorem key_alphabet_not_sixty_two :
    key_sequence.length = 60 ∧ (assign_keys 62 key_sequence).2 = true := by decide

/-- C9 amended: the picker's fixed ordered key alphabet contains exactly 60
distinct symbols, so any flat file list of up to 60 files receives a
complete key assignment without overflow. -/
theorem key_alphabet_sixty (n : Nat) (hn : n ≤ 60) :
    key_sequence.length = 60 ∧ key_sequence.Nodup ∧
    (assign_keys n key_sequence).2 = false ∧
    (assign_keys n key_sequence).1.map Prod.fst = List.range n := by
  have h60 : key_sequence.length = 60 := by decide
  have hle : ¬ (n > key_sequence.length) := by rw [h60]; omega
  refine ⟨h60, by decide, by simp [assign_keys, hle], ?_⟩
  simp only [assign_keys, hle, if_neg, ite_false]
  exact map_fst_range_pairs _ _

/-- C9 witness: at exactly 60 files there is still no overflow. -/
theorem key_alphabet_sixty_w : (assign_keys 60 key_sequence).2 = false :=
  (key_alphabet_sixty 60 (by decide)).2.2.1

theorem concat_go_eq (fs : String → Except ReadError String) (files : List String) :
    ∀ sel : List Nat, (∀ i ∈ sel, i < files.length) →
      concat_go fs files sel =
        Except.ok
          (concatStrings (sel.map fun idx =>
             match fs (files.getD idx "") with
             | .ok content => "# " ++ files.getD idx "" ++ "\n" ++ content ++ "\n"
             | .error _ => ""),
           sel.filterMap fun idx =>
             match fs (files.getD idx "") with
             | .ok _ => none
             | .error e => some (readWarning (files.getD idx "") e)) := by
  intro sel
  induction sel with
  | nil => intro _; rfl
  | cons idx rest ih =>
      intro hb
      have hidx : idx < files.length := hb idx (List.mem_cons_self _ _)
      have hrest : ∀ i ∈ rest, i < files.length := fun i hi => hb i (List.mem_cons_of_mem _ hi)
      have hgd : files.getD idx "" = files[idx] := List.getD_eq_getElem files "" hidx
      cases h : fs files[idx] with
      | ok content =>
          simp only [concat_go, dif_pos hidx, ih hrest, List.map_cons, List.filterMap_cons,
            hgd, h, concatStrings]
      | error e =>
          simp only [concat_go, dif_pos hidx, ih hrest, List.map_cons, List.filterMap_cons,
            hgd, h, concatStrings, String.empty_append]

theorem concatenate_selected_files_eq (fs : String → Except ReadError String)
    (selected : List Nat) (files : List String) (root_dir : String)
    (hb : ∀ i ∈ selected, i < files.length) :
    concatenate_selected_files fs selected files root_dir =
      Except.ok
        { artifact :=
            (match fs (root_dir ++ "/" ++ "tree.txt") with
             | .ok content => "# " ++ (root_dir ++ "/" ++ "tree.txt") ++ "\n" ++ content ++ "\n"
             | .error _ => "") ++
            concatStrings (selected.map fun idx =>
              match fs (files.getD idx "") with
              | .ok content => "# " ++ files.getD idx "" ++ "\n" ++ content ++ "\n"
              | .error _ => "")
        , warnings :=
            (match fs (root_dir ++ "/" ++ "tree.txt") with
             | .ok _ => ([] : List String)
             | .error _ =>
                 ["Warning: " ++ (root_dir ++ "/" ++ "tree.txt") ++
                   " does not exist and will not be included."]) ++
            selected.filterMap fun idx =>
              match fs (files.getD idx "") with
              | .ok _ => none
              | .error e => some (readWarning (files.getD idx "") e) } := by
  unfold concatenate_selected_files
  rw [concat_go_eq fs files selected hb]
  cases h : fs (root_dir ++ "/" ++ "tree.txt") <;> simp [h]

/-- C5: concatenation never aborts on a per-file read error.  For an
in-bounds selection the run always returns a result in which each
successfully read selected file contributes its `# path` header line and
raw content (in selection order), while each failing read contributes
nothing to the artifact and exactly one warning naming the file, leaving
every other selected file's block intact. -/
theorem concatenate_skips_unreadable (fs : String → Except ReadError String)
    (selected : List Nat) (files : List String) (root_dir : String)
    (hb : ∀ i ∈ selected, i < files.length) :
    concatenate_selected_files fs selected files root_dir =
      Except.ok
        { artifact :=
            (match fs (root_dir ++ "/" ++ "tree.txt") with
             | .ok content => "# " ++ (root_dir ++ "/" ++ "tree.txt") ++ "\n" ++ content ++ "\n"
             | .error _ => "") ++
            concatStrings (selected.map fun idx =>
              match fs (files.getD idx "") with
              | .ok content => "# " ++ files.getD idx "" ++ "\n" ++ content ++ "\n"
              | .error _ => "")
        , warnings :=
            (match fs (root_dir ++ "/" ++ "tree.txt") with
             | .ok _ => ([] : List String)
             | .error _ =>
                 ["Warning: " ++ (root_dir ++ "/" ++ "tree.txt") ++
                   " does not exist and will not be included."]) ++
            selected.filterMap fun idx =>
              match fs (files.getD idx "") with
              | .ok _ => none
              | .error e => some (readWarning (files.getD idx "") e) } :=
  concatenate_selected_files_eq fs selected files root_dir hb

/-- C5 witness: the specification scenario — files
`["a.txt", "b.txt", "c.txt"]` with `b.txt` vanished before concatenation
and all three selected: the artifact holds the header and content blocks of
`a.txt` and `c.txt` only, plus a warning naming `b.txt`; the run does not
abort. -/
theorem concatenate_skips_unreadable_w :
    concatenate_selected_files fsExample [0, 1, 2] ["a.txt", "b.txt", "c.txt"] "r" =
      Except.ok
        { artifact := "# a.txt\nalpha\n# c.txt\ngamma\n"
        , warnings :=
            ["Warning: r/tree.txt does not exist and will not be included.",
             "Warning: Could not find file b.txt. Skipping."] } := by
  have hb : ∀ i ∈ ([0, 1, 2] : List Nat),
      i < (["a.txt", "b.txt", "c.txt"] : List String).length := by
    decide
  rw [concatenate_skips_unreadable fsExample [0, 1, 2] ["a.txt", "b.txt", "c.txt"] "r" hb]
  simp [fsExample, concatStrings, readWarning]

theorem dictFind_aux (k : Char) (v : Nat) :
    ∀ (l : List (Char × Nat)) (acc : Option Nat),
      l.foldl (fun acc p => if p.1 == k then some p.2 else acc) acc = some v →
      v ∈ l.map Prod.snd ∨ acc = some v := by
  intro l
  induction l with
  | nil => exact fun acc h => Or.inr h
  | cons p t ih =>
      intro acc h
      rcases ih _ h with hm | hacc
      · exact Or.inl (List.mem_cons_of_mem _ hm)
      · have hacc' : (if (p.1 == k) = true then some p.2 else acc) = some v := hacc
        by_cases hk : (p.1 == k) = true
        · rw [if_pos hk] at hacc'
          exact Or.inl (by
            rw [List.map_cons, ← Option.some_inj.mp hacc']
            exact List.mem_cons_self _ _)
        · rw [if_neg hk] at hacc'
          exact Or.inr hacc'

theorem dictFind_mem (l : List (Char × Nat)) (k : Char) (v : Nat)
    (h : dictFind l k = some v) : v ∈ l.map Prod.snd := by
  rcases dictFind_aux k v l none h with hm | hacc
  · exact hm
  · cases hacc

theorem session_run_mem (kti : List (Char × Nat)) :
    ∀ (inputs : List Char) (s : Finset Nat) (idx : Nat),
      idx ∈ session_run kti inputs s →
      idx ∈ s ∨ ∃ c, dictFind kti c = some idx := by
  intro inputs
  induction inputs with
  | nil => exact fun s idx h => Or.inl h
  | cons key rest ih =>
      intro s idx h
      by_cases hnl : (key == '\n') = true
      · simp only [session_run, selection_step, hnl, if_true] at h
        exact Or.inl h
      · rcases hf : dictFind kti key with _ | j
        · simp only [session_run, selection_step, hnl, hf, Bool.false_eq_true, if_false] at h
          exact ih s idx h
        · simp only [session_run, selection_step, hnl, hf, Bool.false_eq_true, if_false] at h
          rcases ih _ idx h with hm | hex
          · by_cases hjs : j ∈ s
            · rw [if_pos hjs] at hm
              exact Or.inl (Finset.mem_of_mem_erase hm)
            · rw [if_neg hjs] at hm
              rcases Finset.mem_insert.mp hm with rfl | hs
              · exact Or.inr ⟨key, hf⟩
              · exact Or.inl hs
          · exact Or.inr hex

theorem get_key_mapping_snd (km : List (Nat × Char)) :
    (get_key_mapping km).map Prod.snd = km.map Prod.fst := by
  simp only [get_key_mapping, List.map_map]
  rfl

theorem assign_keys_fst (n : Nat) (ks : List Char) :
    (assign_keys n ks).1.map Prod.fst = List.range (min n ks.length) := by
  by_cases h : n > ks.length
  · rw [Nat.min_eq_right (le_of_lt h)]
    simp only [assign_keys, if_pos h]
    exact map_fst_range_pairs _ _
  · rw [Nat.min_eq_left (le_of_not_lt h)]
    simp only [assign_keys, if_neg h]
    exact map_fst_range_pairs _ _

/-- C10: every index ever contained in the selection set produced by the
interactive session over the key mapping of `assign_keys` lies below
`min file_count alphabet_length`; hence, when the key mapping was built
for the actual file count, every `files[idx]` lookup of the concatenation
stage is in bounds and the concatenation returns a result instead of
raising an out-of-range error. -/
theorem session_selection_in_bounds (n : Nat) (ks : List Char) (inputs : List Char) :
    (∀ idx ∈ interactive_file_selection (assign_keys n ks).1 inputs,
        idx < min n ks.length) ∧
    (∀ (fs : String → Except ReadError String) (files : List String) (root_dir : String),
        files.length = n →
        ∃ r, concatenate_selected_files fs
            (interactive_file_selection (assign_keys n ks).1 inputs).toList files root_dir =
          Except.ok r) := by
  have hb : ∀ idx ∈ interactive_file_selection (assign_keys n ks).1 inputs,
      idx < min n ks.length := by
    intro idx hmem
    unfold interactive_file_selection at hmem
    rcases session_run_mem _ _ _ _ hmem with hs | ⟨c, hc⟩
    · exact absurd hs (Finset.not_mem_empty idx)
    · have hv := dictFind_mem _ _ _ hc
      rw [get_key_mapping_snd, assign_keys_fst] at hv
      exact List.mem_range.mp hv
  refine ⟨hb, ?_⟩
  intro fs files root_dir hlen
  have hb' : ∀ i ∈ (interactive_file_selection (assign_keys n ks).1 inputs).toList,
      i < files.length := by
    intro i hi
    have h1 := hb i (Finset.mem_toList.mp hi)
    have h2 : min n ks.length ≤ n := Nat.min_le_left _ _
    omega
  exact ⟨_, concatenate_selected_files_eq fs _ files root_dir hb'⟩

/-- C10 witness: one file, one key, the key pressed once; the selected index
0 is in bounds and concatenation returns a result. -/
theorem session_selection_in_bounds_w :
    (0 < min 1 (['a'] : List Char).length) ∧
    (∃ r, concatenate_selected_files fsExample
        (interactive_file_selection (assign_keys 1 ['a']).1 ['a']).toList ["a.txt"] "r" =
      Except.ok r) :=
  ⟨(session_selection_in_bounds 1 ['a'] ['a']).1 0 (by decide),
   (session_selection_in_bounds 1 ['a'] ['a']).2 fsExample ["a.txt"] "r" rfl⟩

theorem filesHere_not_ignored (patterns : List String) (base : List String)
    (entries : List Entry) (path : List String)
    (h : path ∈ filesHere patterns base entries) : is_ignored path patterns = false := by
  obtain ⟨e, _, hf⟩ := List.mem_filterMap.mp h
  cases e with
  | file nm =>
      simp only [filesHere] at hf
      split at hf
      · cases hf
      · cases Option.some_inj.mp hf
        rename_i hig
        exact Bool.of_not_eq_true hig
  | dir nm ch => cases hf

theorem walkDirs_not_ignored (patterns : List String) :
    ∀ (fuel : Nat) (base : List String) (entries : List Entry) (path : List String),
      path ∈ walkDirs patterns fuel base entries → is_ignored path patterns = false := by
  intro fuel
  induction fuel with
  | zero =>
      intro base entries path h
      simp [walkDirs] at h
  | succ fuel ih =>
      intro base entries path h
      simp only [walkDirs] at h
      obtain ⟨e, _, hmem⟩ := List.mem_flatMap.mp h
      cases e with
      | file nm => cases hmem
      | dir nm ch =>
          have hmem' : path ∈ (if is_ignored (base ++ [nm]) patterns = true then []
              else filesHere patterns (base ++ [nm]) ch ++
                walkDirs patterns fuel (base ++ [nm]) ch) := hmem
          by_cases hig : is_ignored (base ++ [nm]) patterns = true
          · rw [if_pos hig] at hmem'
            cases hmem'
          · rw [if_neg hig] at hmem'
            rcases List.mem_append.mp hmem' with h1 | h2
            · exact filesHere_not_ignored _ _ _ _ h1
            · exact ih _ _ _ h2

theorem not_ignored_dir_pattern (path : List String) (patterns : List String) (p : String)
    (hp : p ∈ patterns) (hslash : pyEndsWith p '/' = true)
    (h : is_ignored path patterns = false) : pyRstrip p '/' ∉ path := by
  intro hmem
  have hall := List.any_eq_false.mp h p hp
  rw [if_pos hslash] at hall
  exact hall (List.elem_iff.mpr hmem)

theorem recurse_mem_spec (patterns : List String) (ig : String) :
    ∀ (fuel : Nat) (children : List Entry) (base : List String) (pfx : String)
      (pr : List String × String), pr ∈ recurse patterns ig fuel children base pfx →
      ∃ tail, pr.1 = base ++ tail ∧ tail ≠ [] ∧
        ∀ s ∈ tail, s ≠ ig ∧ matches_ignore_pattern patterns s = false := by
  intro fuel
  induction fuel with
  | zero =>
      intro children base pfx pr h
      simp [recurse] at h
  | succ fuel ih =>
      intro children base pfx pr h
      simp only [recurse] at h
      obtain ⟨q, hq, hmem⟩ := List.mem_flatMap.mp h
      obtain ⟨i, e⟩ := q
      have he : e ∈ (((sortEntries children).filter fun x => entryName x != ig).filter
          fun x => !(matches_ignore_pattern patterns (entryName x))) := by
        have := (List.mem_enum hq).2
        rw [this]
        exact List.getElem_mem (List.mem_enum hq).1
      have hem := List.mem_filter.mp he
      have hnm : matches_ignore_pattern patterns (entryName e) = false :=
        (Bool.not_eq_true' _).mp hem.2
      have hnig : entryName e ≠ ig := bne_iff_ne.mp (List.mem_filter.mp hem.1).2
      cases e with
      | file nm =>
          simp only [List.mem_singleton] at hmem
          refine ⟨[nm], ?_, by simp, ?_⟩
          · rw [hmem]
          · intro s hs
            rw [List.mem_singleton.mp hs]
            exact ⟨hnig, hnm⟩
      | dir nm ch =>
          rcases List.mem_cons.mp hmem with hhd | htl
          · refine ⟨[nm], ?_, by simp, ?_⟩
            · rw [hhd]
            · intro s hs
              rw [List.mem_singleton.mp hs]
              exact ⟨hnig, hnm⟩
          · obtain ⟨tail, heq, -, hall⟩ := ih ch (base ++ [nm]) _ pr htl
            refine ⟨nm :: tail, ?_, by simp, ?_⟩
            · rw [heq, List.append_assoc]
              rfl
            · intro s hs
              rcases List.mem_cons.mp hs with rfl | hs'
              · exact ⟨hnig, hnm⟩
              · exact hall s hs'

/-- C1: a directory-exact (trailing-slash) ignore pattern prunes the whole
subtree before descent, in both tools: the stripped pattern name never
occurs as a non-final segment of any path in the picker's flat file list,
nor of any entry path in the printer's render tree, so no path under a
directory whose name matches the pattern is ever emitted. -/
theorem dir_pattern_prunes_subtree (patterns : List String) (p : String)
    (hp : p ∈ patterns) (hslash : pyEndsWith p '/' = true) :
    (∀ (entries : List Entry) (path : List String),
        path ∈ list_files patterns entries → pyRstrip p '/' ∉ path.dropLast) ∧
    (∀ (ig : String) (fuel : Nat) (children : List Entry) (pr : List String × String),
        pr ∈ recurse patterns ig fuel children [] "" → pyRstrip p '/' ∉ pr.1.dropLast) := by
  constructor
  · intro entries path h
    have hnig : is_ignored path patterns = false := by
      rcases List.mem_append.mp h with h1 | h2
      · exact filesHere_not_ignored _ _ _ _ h1
      · exact walkDirs_not_ignored _ _ _ _ _ h2
    intro hmem
    exact not_ignored_dir_pattern path patterns p hp hslash hnig (List.dropLast_subset _ hmem)
  · intro ig fuel children pr h
    obtain ⟨tail, heq, -, hall⟩ := recurse_mem_spec patterns ig fuel children [] "" pr h
    rw [heq]
    intro hmem
    have hmem' : pyRstrip p '/' ∈ tail := by
      simpa using List.dropLast_subset _ hmem
    have hm := (hall _ hmem').2
    have hbody := List.any_eq_false.mp hm p hp
    rw [if_pos hslash] at hbody
    exact hbody (beq_self_eq_true _)

/-- C1 witness: with the pattern `node_modules/` over a tree holding
`node_modules/x.js` and `src/main.py`, the emitted path `src/main.py` has no
`node_modules` segment before its base name. -/
theorem dir_pattern_prunes_subtree_w :
    pyRstrip "node_modules/" '/' ∉ (["src", "main.py"] : List String).dropLast :=
  (dir_pattern_prunes_subtree ["node_modules/"] "node_modules/" (by decide) (by decide)).1
    [Entry.dir "node_modules" [Entry.file "x.js"], Entry.dir "src" [Entry.file "main.py"]]
    ["src", "main.py"] (by decide)

/-- C7 amended: the printer always excludes its configured ignore file from
the rendered tree (no rendered entry path contains its name); the picker
has no such exclusion — its ignore files appear in the flat file list
unless a loaded pattern happens to match them. -/
theorem ignore_file_never_rendered (patterns : List String) (ig : String) (fuel : Nat)
    (children : List Entry) (pr : List String × String)
    (h : pr ∈ recurse patterns ig fuel children [] "") : ig ∉ pr.1 := by
  obtain ⟨tail, heq, -, hall⟩ := recurse_mem_spec patterns ig fuel children [] "" pr h
  rw [heq]
  intro hmem
  have hmem' : ig ∈ tail := by simpa using hmem
  exact (hall _ hmem').1 rfl

/-- C7 witness: a rendered file entry never is the ignore file. -/
theorem ignore_file_never_rendered_w : ".treeignore" ∉ (["a.txt"] : List String) :=
  ignore_file_never_rendered [] ".treeignore" 2 [Entry.file "a.txt"] (["a.txt"], "└── a.txt")
    (by decide)

/-- C7 counterexample: the picker does not exclude its ignore files from
traversal results: with `.gitignore` present but empty and `.selectignore`
absent, the loaded pattern set is empty and `.gitignore` itself appears in
the flat file list. -/
theorem gitignore_in_flat_list :
    [".gitignore"] ∈
      list_files (load_ignore_patterns [some [], none]) [Entry.file ".gitignore"] := by
  decide

/-- C6 amended: the printer's effective pattern list always contains every
built-in default pattern (plus caller-supplied patterns and ignore-file
lines); the picker's loader, by contrast, draws every pattern from the
lines of its ignore files alone — the built-in defaults are included in the
printer's effective set only. -/
theorem defaults_printer_only :
    (∀ (extra : List String) (ig : String) (content : Option (List String)) (p : String),
        p ∈ DEFAULT_IGNORE_PATTERNS →
        p ∈ (FolderStructureGenerator.make extra ig).load_ignore_patterns content) ∧
    (∀ (fls : List (Option (List String))) (p : String),
        p ∈ load_ignore_patterns fls →
        ∃ lines, some lines ∈ fls ∧ ∃ line ∈ lines, pyStrip line = p) := by
  constructor
  · intro extra ig content p hp
    apply List.mem_append_left
    exact List.mem_dedup.mpr (List.mem_append_left _ hp)
  · intro fls p hp
    obtain ⟨content, hc, hmem⟩ := List.mem_flatMap.mp hp
    cases content with
    | none => cases hmem
    | some lines =>
        obtain ⟨line, hl, hsome⟩ := List.mem_filterMap.mp hmem
        refine ⟨lines, hc, line, hl, ?_⟩
        simp only at hsome
        split at hsome
        · exact Option.some_inj.mp hsome
        · cases hsome

/-- C6 witness: the default pattern `.git` is in the printer's loaded
pattern list even with no ignore file present. -/
theorem defaults_printer_only_w :
    ".git" ∈ (FolderStructureGenerator.make [] ".treeignore").load_ignore_patterns none :=
  defaults_printer_only.1 [] ".treeignore" none ".git" (by decide)

/-- C6 counterexample: `__pycache__` is a built-in default pattern, yet the
picker's effective pattern set (here with neither `.gitignore` nor
`.selectignore` present) does not contain it: the picker starts from an
empty list, not from the defaults. -/
theorem picker_defaults_missing :
    "__pycache__" ∈ DEFAULT_IGNORE_PATTERNS ∧
    "__pycache__" ∉ load_ignore_patterns [none, none] := by decide

/-- C8 amended: both loaders trim each ignore-file line and keep non-empty
non-comment lines as their trimmed text, but the comment test differs: the
picker tests the leading `#` on the trimmed line, while the printer tests
it on the raw line, so a line of whitespace followed by `#` is skipped as a
comment by the picker yet becomes a pattern (its trimmed text) in the
printer. -/
theorem comment_line_handling (line : String) (extra : List String) (ig : String) :
    (load_ignore_patterns [some [line]] =
        if pyStrip line != "" && !(pyStartsWith (pyStrip line) '#') then [pyStrip line]
        else []) ∧
    ((FolderStructureGenerator.make extra ig).load_ignore_patterns (some [line]) =
        (FolderStructureGenerator.make extra ig).ignored_folders ++
          (if pyStrip line != "" && !(pyStartsWith line '#') then [pyStrip line] else [])) ∧
    (pyStartsWith (pyStrip line) '#' = true → load_ignore_patterns [some [line]] = []) := by
  have h1 : load_ignore_patterns [some [line]] =
      if pyStrip line != "" && !(pyStartsWith (pyStrip line) '#') then [pyStrip line]
      else [] := by
    cases hc : (pyStrip line != "" && !(pyStartsWith (pyStrip line) '#')) with
    | true =>
        simp only [load_ignore_patterns, List.flatMap_cons, List.flatMap_nil, List.append_nil,
          List.filterMap_cons, List.filterMap_nil, hc, eq_self_iff_true, ite_true]
    | false =>
        simp only [load_ignore_patterns, List.flatMap_cons, List.flatMap_nil, List.append_nil,
          List.filterMap_cons, List.filterMap_nil, hc, Bool.false_eq_true, ite_false]
  refine ⟨h1, ?_, ?_⟩
  · cases hc : (pyStrip line != "" && !(pyStartsWith line '#')) with
    | true =>
        simp only [FolderStructureGenerator.load_ignore_patterns, List.filterMap_cons,
          List.filterMap_nil, hc, eq_self_iff_true, ite_true]
    | false =>
        simp only [FolderStructureGenerator.load_ignore_patterns, List.filterMap_cons,
          List.filterMap_nil, hc, Bool.false_eq_true, ite_false]
  · intro hcomment
    have hfalse : (pyStrip line != "" && !(pyStartsWith (pyStrip line) '#')) = false := by
      rw [hcomment]
      simp
    rw [h1, hfalse]
    simp

/-- C8 witness: a line of whitespace followed by `#` is skipped as a
comment by the picker's loader. -/
theorem comment_line_handling_w :
    load_ignore_patterns [some ["   #note"]] = [] :=
  (comment_line_handling "   #note" [] ".treeignore").2.2 (by decide)

/-- C8 counterexample: in the printer's loader a line of whitespace
followed by `#` is not skipped: its comment test sees the raw line, and the
trimmed text `#build` becomes a pattern. -/
theorem printer_keeps_whitespace_comment :
    "#build" ∈ (FolderStructureGenerator.make [] ".treeignore").load_ignore_patterns
      (some ["  #build"]) := by
  decide

